import Mathlib

/-!
Shallow embedding of the Venice runtime support library (C sources under
`src/runtime/` and `src/ffi/`), together with theorems settling the frozen
claims about it.

Modelling conventions:
* Machine integers (`uint64_t`, `size_t`) are modelled as `Nat`; the claims
  under scrutiny explicitly assume capacity arithmetic does not overflow.
* A `venice_list_t` is modelled by the initialized prefix of its backing
  buffer (`items`, whose length is the C `length` field) together with the
  `capacity` field; the backing buffer is allocated for exactly `capacity`
  slots and its slots beyond `length` are uninitialized, so they do not
  appear in the model.
* Fatal runtime errors (`runtime_error`, which prints to `stderr` and calls
  `exit(EXIT_FAILURE)`) are modelled with `Except`: `Except.error (msg, 1)`
  records the diagnostic message and the non-zero exit code (`EXIT_FAILURE`
  is 1); `Except.ok` is a normally returned value.
* Heap pointers are modelled as `Nat`, with `0` playing the role of `NULL`.
-/

namespace Venice

/-! ### `src/runtime/internal.c`: `runtime_error`, `venice_malloc`, `venice_realloc` -/

/-- Outcome of a runtime routine that may terminate the process:
`Except.error (msg, code)` models `fprintf(stderr, "runtime error: %s\n", msg)`
followed by `exit(code)`; `Except.ok v` is a normal return of `v`. -/
abbrev RunResult (α : Type) : Type := Except (String × Nat) α

/-- `runtime_error` from `src/runtime/internal.c`: prints the message to the
error stream and exits with `EXIT_FAILURE` (= 1). -/
def runtime_error {α : Type} (message : String) : RunResult α :=
  Except.error (message, 1)

/-- `venice_malloc` from `src/runtime/internal.c`. The underlying allocator
`malloc` is abstracted as a function from the requested size to the returned
pointer, `0` meaning `NULL` (allocation failure). -/
def venice_malloc (malloc : Nat → Nat) (size : Nat) : RunResult Nat :=
  if malloc size = 0 then runtime_error "out of memory" else Except.ok (malloc size)

/-- Outcome of `venice_realloc`: the list of pointers passed to `free`
during the call, and the returned pointer (or the fatal error). -/
structure ReallocOutcome where
  freed : List Nat
  result : RunResult Nat
  deriving Repr

/-- `venice_realloc` from `src/runtime/internal.c`. The underlying `realloc`
is abstracted as a function from (pointer, new size) to the returned pointer,
`0` meaning `NULL`. Note that on success the C code returns `ptr` — its first
argument — not the value `ret` obtained from `realloc`. -/
def venice_realloc (realloc : Nat → Nat → Nat) (ptr : Nat) (new_size : Nat) :
    ReallocOutcome :=
  if realloc ptr new_size = 0 then
    { freed := [ptr], result := runtime_error "out of memory" }
  else
    { freed := [], result := Except.ok ptr }

/-! ### `src/runtime/list.c`: the growable list -/

/-- `venice_list_t` from `src/runtime/venice.h`: `items` is the initialized
prefix of the backing buffer, so `items.length` is the C `length` field;
`capacity` is the number of slots the backing buffer is allocated for. -/
structure VeniceList where
  items : List Nat
  capacity : Nat
  deriving DecidableEq, Repr

/-- `VENICE_LIST_INITIAL_CAPACITY` from `src/runtime/list.c`. -/
def VENICE_LIST_INITIAL_CAPACITY : Nat := 8

/-- `venice_list_new` from `src/runtime/list.c`: length starts at 0 and the
requested capacity is replaced by `VENICE_LIST_INITIAL_CAPACITY` exactly when
it is 0; the backing buffer is allocated for `capacity` slots. -/
def venice_list_new (capacity : Nat) : VeniceList :=
  { items := [],
    capacity := if capacity = 0 then VENICE_LIST_INITIAL_CAPACITY else capacity }

/-- `venice_list_from_varargs` from `src/runtime/list.c`: the variadic
arguments are modelled as the list `args` (so the C `length` argument is
`args.length`). The loop copies each argument into the next slot and
increments `length`, ending with `items = args`. -/
def venice_list_from_varargs (args : List Nat) : VeniceList :=
  if args.length = 0 then
    venice_list_new VENICE_LIST_INITIAL_CAPACITY
  else
    { items := args, capacity := args.length }

/-- `venice_list_index` from `src/runtime/list.c`: fatal `runtime_error`
when `n >= length`, otherwise the `n`-th slot of the buffer. -/
def venice_list_index (list : VeniceList) (n : Nat) : RunResult Nat :=
  if h : list.items.length ≤ n then
    runtime_error "index out of bounds"
  else
    Except.ok (list.items.get ⟨n, Nat.lt_of_not_le h⟩)

/-- `venice_list_resize` from `src/runtime/list.c`: the capacity is doubled
and the backing buffer reallocated for the new capacity; the initialized
prefix is preserved by `realloc`. -/
def venice_list_resize (list : VeniceList) : VeniceList :=
  { list with capacity := list.capacity * 2 }

/-- `venice_list_append` from `src/runtime/list.c`: resize exactly when
`length == capacity`, then store the item at index `length` and increment
`length`. -/
def venice_list_append (list : VeniceList) (x : Nat) : VeniceList :=
  let list' := if list.items.length = list.capacity then venice_list_resize list else list
  { list' with items := list'.items ++ [x] }

/-- `venice_list_length` from `src/runtime/list.c`. -/
def venice_list_length (list : VeniceList) : Nat := list.items.length

/-- `venice_list_capacity` from `src/runtime/list.c`. -/
def venice_list_capacity (list : VeniceList) : Nat := list.capacity

/-- A sequence of appends, in order. -/
def venice_list_append_all (list : VeniceList) (xs : List Nat) : VeniceList :=
  xs.foldl venice_list_append list

/-- C1, amended to the behaviour the code has (the claim as stated, with
`max(c, 8)` capacities, fails — the floor is substituted only for a request
of exactly 0): `venice_list_new c` has length 0, an empty initialized prefix,
and capacity `c` unless `c = 0`, in which case capacity 8; and
`venice_list_from_varargs args` holds exactly `args` in order, with length
`args.length` and capacity `args.length` unless `args.length = 0`, in which
case capacity 8. -/
theorem c1_constructors_capacity :
    ∀ (c : Nat) (args : List Nat),
      venice_list_length (venice_list_new c) = 0 ∧
      (venice_list_new c).items = [] ∧
      venice_list_capacity (venice_list_new c) = (if c = 0 then 8 else c) ∧
      (venice_list_from_varargs args).items = args ∧
      venice_list_length (venice_list_from_varargs args) = args.length ∧
      venice_list_capacity (venice_list_from_varargs args) =
        (if args.length = 0 then 8 else args.length) := by
  intro c args
  refine ⟨rfl, rfl, ?_, ?_, ?_, ?_⟩
  · by_cases hc : c = 0 <;>
      simp [venice_list_new, venice_list_capacity, VENICE_LIST_INITIAL_CAPACITY, hc]
  · cases args with
    | nil => rfl
    | cons a l => rfl
  · cases args with
    | nil => rfl
    | cons a l => rfl
  · cases args with
    | nil => rfl
    | cons a l =>
        simp [venice_list_from_varargs, venice_list_capacity]

/-- C1 fails as stated: the claim says the capacity of `new(c)` is
`max(c, 8)` and the capacity after `from_sequence` of `n` values is
`max(n, 8)`, but the code only substitutes the floor 8 when the request is
exactly 0, so `new(3)` has capacity 3 (not 8) and a 3-element
`from_varargs` list has capacity 3 (not 8). -/
theorem c1_counterexample :
    venice_list_capacity (venice_list_new 3) = 3 ∧
    venice_list_capacity (venice_list_new 3) ≠ max 3 8 ∧
    venice_list_capacity (venice_list_from_varargs [10, 20, 30]) = 3 ∧
    venice_list_capacity (venice_list_from_varargs [10, 20, 30]) ≠ max 3 8 := by
  decide

/-- Invariant maintained by `venice_list_append` on a list whose capacity
started at `C`: the length never exceeds the capacity, the capacity is
`C * 2 ^ k` for the number `k` of doublings performed so far, and unless no
doubling has happened yet the previous capacity was too small for the
current length. -/
def GrowthInv (C : Nat) (l : VeniceList) : Prop :=
  l.items.length ≤ l.capacity ∧
    ∃ k, l.capacity = C * 2 ^ k ∧ (k = 0 ∨ C * 2 ^ (k - 1) < l.items.length)

theorem growthInv_append {C : Nat} {l : VeniceList} (hC : 1 ≤ C)
    (h : GrowthInv C l) (x : Nat) :
    GrowthInv C (venice_list_append l x) ∧
      (venice_list_append l x).items = l.items ++ [x] := by
  obtain ⟨hle, k, hcap, harm⟩ := h
  by_cases hfull : l.items.length = l.capacity
  · have happ : venice_list_append l x =
        { items := l.items ++ [x], capacity := l.capacity * 2 } := by
      simp [venice_list_append, venice_list_resize, hfull]
    have hpos : 1 ≤ l.capacity := by
      rw [hcap]
      calc 1 = 1 * 1 := by ring
      _ ≤ C * 2 ^ k := Nat.mul_le_mul hC (Nat.one_le_two_pow)
    refine ⟨⟨?_, k + 1, ?_, ?_⟩, by rw [happ]⟩
    · rw [happ]
      simp only [List.length_append, List.length_cons, List.length_nil]
      omega
    · rw [happ, hcap]
      ring
    · right
      rw [happ]
      simp only [Nat.add_sub_cancel, List.length_append, List.length_cons,
        List.length_nil]
      omega
  · have happ : venice_list_append l x =
        { items := l.items ++ [x], capacity := l.capacity } := by
      simp [venice_list_append, hfull]
    have hlt : l.items.length < l.capacity := lt_of_le_of_ne hle hfull
    refine ⟨⟨?_, k, ?_, ?_⟩, by rw [happ]⟩
    · rw [happ]
      simp only [List.length_append, List.length_cons, List.length_nil]
      omega
    · rw [happ, hcap]
    · rw [happ]
      rcases harm with h0 | hprev
      · exact Or.inl h0
      · right
        simp only [List.length_append, List.length_cons, List.length_nil]
        omega

theorem growthInv_append_all {C : Nat} (hC : 1 ≤ C) :
    ∀ (xs : List Nat) (l : VeniceList), GrowthInv C l →
      GrowthInv C (venice_list_append_all l xs) ∧
        (venice_list_append_all l xs).items = l.items ++ xs := by
  intro xs
  induction xs with
  | nil => intro l hl; simpa [venice_list_append_all] using hl
  | cons x xs ih =>
      intro l hl
      have hstep := growthInv_append hC hl x
      have hrec := ih (venice_list_append l x) hstep.1
      refine ⟨by simpa [venice_list_append_all] using hrec.1, ?_⟩
      have : venice_list_append_all l (x :: xs) =
          venice_list_append_all (venice_list_append l x) xs := rfl
      rw [this, hrec.2, hstep.2]
      simp

theorem growthInv_min {C : Nat} {l : VeniceList}
    (h : GrowthInv C l) :
    ∀ j, l.items.length ≤ C * 2 ^ j → l.capacity ≤ C * 2 ^ j := by
  obtain ⟨hle, k, hcap, harm⟩ := h
  intro j hj
  rcases harm with h0 | hprev
  · subst h0
    rw [hcap]
    simpa using Nat.mul_le_mul_left C (Nat.one_le_two_pow)
  · have h1 : C * 2 ^ (k - 1) < C * 2 ^ j := lt_of_lt_of_le hprev hj
    have h2 : (2 : Nat) ^ (k - 1) < 2 ^ j := Nat.lt_of_mul_lt_mul_left h1
    have h3 : k - 1 < j := (Nat.pow_lt_pow_iff_right (by norm_num)).mp h2
    have h4 : k ≤ j := by
      rcases Nat.eq_zero_or_pos k with hk | hk
      · omega
      · omega
    rw [hcap]
    exact Nat.mul_le_mul_left C (Nat.pow_le_pow_right (by norm_num) h4)

theorem growthInv_new {C : Nat} (hC : 1 ≤ C) :
    GrowthInv C (venice_list_new C) := by
  have hne : C ≠ 0 := by omega
  refine ⟨?_, 0, ?_, Or.inl rfl⟩ <;> simp [venice_list_new, hne]

/-- C2: starting from `venice_list_new C` with `C ≥ 1` and appending the
elements of `xs` in order: an append finding `length = capacity` doubles
the capacity and stores the item at index `length`, an append finding
`length ≠ capacity` stores the item without changing the capacity; after
all appends the length is `xs.length`, the capacity is of the form
`C * 2 ^ k`, it is at least `xs.length`, it is the least value of that form
that is at least `xs.length`, and indexing at every `i < xs.length`
returns the `i`-th appended element. -/
theorem c2_append_growth (C : Nat) (xs : List Nat) (hC : 1 ≤ C) :
    (∀ (l : VeniceList) (x : Nat), l.items.length = l.capacity →
        venice_list_append l x =
          { items := l.items ++ [x], capacity := l.capacity * 2 }) ∧
    (∀ (l : VeniceList) (x : Nat), l.items.length ≠ l.capacity →
        venice_list_append l x =
          { items := l.items ++ [x], capacity := l.capacity }) ∧
    venice_list_length (venice_list_append_all (venice_list_new C) xs) =
      xs.length ∧
    (∃ k, venice_list_capacity (venice_list_append_all (venice_list_new C) xs) =
        C * 2 ^ k) ∧
    xs.length ≤ venice_list_capacity (venice_list_append_all (venice_list_new C) xs) ∧
    (∀ j, xs.length ≤ C * 2 ^ j →
        venice_list_capacity (venice_list_append_all (venice_list_new C) xs) ≤
          C * 2 ^ j) ∧
    (∀ (i : Nat) (h : i < xs.length),
        venice_list_index (venice_list_append_all (venice_list_new C) xs) i =
          Except.ok (xs.get ⟨i, h⟩)) := by
  obtain ⟨hinv, hitems⟩ :=
    growthInv_append_all hC xs (venice_list_new C) (growthInv_new hC)
  have hitems' : (venice_list_append_all (venice_list_new C) xs).items = xs := by
    simpa [venice_list_new] using hitems
  refine ⟨?_, ?_, ?_, ?_, ?_, ?_, ?_⟩
  · intro l x hfull
    simp [venice_list_append, venice_list_resize, hfull]
  · intro l x hfull
    simp [venice_list_append, hfull]
  · rw [venice_list_length, hitems']
  · obtain ⟨_, k, hcap, _⟩ := hinv
    exact ⟨k, hcap⟩
  · have := hinv.1
    rw [hitems'] at this
    exact this
  · intro j hj
    exact growthInv_min hinv j (by rw [hitems']; exact hj)
  · intro i h
    have hlen : ¬ ((venice_list_append_all (venice_list_new C) xs).items.length ≤ i) := by
      rw [hitems']; omega
    simp only [venice_list_index, hlen, dite_false]
    exact congrArg Except.ok (List.get_of_eq hitems' ⟨i, Nat.lt_of_not_le hlen⟩)

/-- Witness for C2 at `C = 1`, `xs = [5, 6, 7]`. -/
theorem c2_append_growth_witness :
    1 ≤ 1 ∧
    venice_list_index (venice_list_append_all (venice_list_new 1) [5, 6, 7]) 2 =
      Except.ok 7 :=
  ⟨Nat.le_refl 1,
    (c2_append_growth 1 [5, 6, 7] (Nat.le_refl 1)).2.2.2.2.2.2 2 (by decide)⟩

/-- C4: whenever the underlying `realloc` succeeds (returns a non-null
pointer), `venice_realloc` returns its first argument `ptr`, not the pointer
the underlying `realloc` produced; the address of the resized block is
discarded, so two underlying allocators that both succeed on the call give
identical outcomes. -/
theorem c4_realloc_returns_first_argument
    (f g : Nat → Nat → Nat) (ptr new_size : Nat)
    (hf : f ptr new_size ≠ 0) (hg : g ptr new_size ≠ 0) :
    (venice_realloc f ptr new_size).result = Except.ok ptr ∧
    venice_realloc f ptr new_size = venice_realloc g ptr new_size := by
  constructor
  · simp [venice_realloc, hf]
  · simp [venice_realloc, hf, hg]

/-- Witness for C4: an underlying `realloc` that moves the block from
address 7 to address 5; the wrapper still returns 7. -/
theorem c4_realloc_returns_first_argument_witness :
    (fun (_ _ : Nat) => 5) 7 8 ≠ 0 ∧
    (venice_realloc (fun _ _ => 5) 7 8).result = Except.ok 7 :=
  ⟨by decide,
    (c4_realloc_returns_first_argument (fun _ _ => 5) (fun _ _ => 5) 7 8
      (by decide) (by decide)).1⟩

/-- C6 fails as stated: with an underlying `realloc` that succeeds
(returning the non-null address 5), the call `venice_realloc` on the null
pointer 0 does not terminate the process, yet its returned pointer is 0
(null), because the wrapper returns its first argument. This refutes "in
every non-terminating execution the returned pointer is non-null". -/
theorem c6_counterexample :
    (fun (_ _ : Nat) => 5) 0 8 ≠ 0 ∧
    (venice_realloc (fun _ _ => 5) 0 8).result = Except.ok 0 :=
  ⟨by decide, rfl⟩

/-- C6 amended: `allocate` and `reallocate` never return a failure
indication: on underlying allocator failure `allocate` terminates with the
diagnostic "out of memory" and exit code 1, and `reallocate` first frees
the original block and then terminates the same way; in every
non-terminating execution `allocate`'s returned pointer is non-null, and
`reallocate` returns its first argument unchanged — hence a non-null
pointer whenever its argument was non-null. -/
theorem c6_allocation_guard
    (malloc : Nat → Nat) (realloc : Nat → Nat → Nat) (size ptr : Nat) :
    (malloc size = 0 →
        venice_malloc malloc size = Except.error ("out of memory", 1)) ∧
    (∀ p, venice_malloc malloc size = Except.ok p → p ≠ 0) ∧
    (realloc ptr size = 0 →
        (venice_realloc realloc ptr size).freed = [ptr] ∧
        (venice_realloc realloc ptr size).result =
          Except.error ("out of memory", 1)) ∧
    (realloc ptr size ≠ 0 →
        (venice_realloc realloc ptr size).freed = [] ∧
        (venice_realloc realloc ptr size).result = Except.ok ptr) ∧
    (ptr ≠ 0 →
        ∀ q, (venice_realloc realloc ptr size).result = Except.ok q → q ≠ 0) := by
  refine ⟨?_, ?_, ?_, ?_, ?_⟩
  · intro h
    simp [venice_malloc, runtime_error, h]
  · intro p hp
    by_cases h : malloc size = 0
    · simp [venice_malloc, runtime_error, h] at hp
    · simp [venice_malloc, h] at hp
      omega
  · intro h
    simp [venice_realloc, runtime_error, h]
  · intro h
    simp [venice_realloc, h]
  · intro hptr q hq
    by_cases h : realloc ptr size = 0
    · simp [venice_realloc, runtime_error, h] at hq
    · simp [venice_realloc, h] at hq
      omega

/-- Witness for C6 (amended): a failing underlying allocator makes
`venice_malloc` terminate with the "out of memory" diagnostic and exit
code 1. -/
theorem c6_allocation_guard_witness :
    venice_malloc (fun _ => 0) 4 = Except.error ("out of memory", 1) :=
  (c6_allocation_guard (fun _ => 0) (fun _ _ => 0) 4 1).1 rfl

/-- C7: `venice_list_index l n` raises the fatal out-of-bounds runtime
error (diagnostic "index out of bounds", exit code 1, no value returned)
if and only if `n ≥ length` — the test depends only on the length, never
on the capacity, so positions between length and capacity are also fatal —
and for every `n < length` it returns the element stored at position `n`. -/
theorem c7_index_bounds (l : VeniceList) (n : Nat) :
    (venice_list_length l ≤ n →
        venice_list_index l n = Except.error ("index out of bounds", 1)) ∧
    (∀ h : n < l.items.length,
        venice_list_index l n = Except.ok (l.items.get ⟨n, h⟩)) ∧
    (venice_list_index l n = Except.error ("index out of bounds", 1) ↔
        venice_list_length l ≤ n) := by
  refine ⟨?_, ?_, ?_, ?_⟩
  · intro h
    simp [venice_list_index, venice_list_length] at *
    simp [h, runtime_error]
  · intro h
    have h' : ¬ (l.items.length ≤ n) := by omega
    simp [venice_list_index, h']
  · intro h
    by_cases hle : l.items.length ≤ n
    · simpa [venice_list_length] using hle
    · simp [venice_list_index, hle] at h
  · intro h
    simp [venice_list_length] at h
    simp [venice_list_index, h, runtime_error]

/-- Witness for C7: a list of length 2 and capacity 10; position 5, which
lies strictly between the length and the capacity, is fatal. -/
theorem c7_index_bounds_witness :
    venice_list_length { items := [4, 5], capacity := 10 } ≤ 5 ∧
    venice_list_index { items := [4, 5], capacity := 10 } 5 =
      Except.error ("index out of bounds", 1) :=
  ⟨by decide,
    (c7_index_bounds { items := [4, 5], capacity := 10 } 5).1 (by decide)⟩

/-! ### `src/runtime/string.c`: the string buffer -/

/-- `venice_string_t` from `src/runtime/venice.h`: `length` is the byte
count excluding the terminator; `data` is the byte content of the owned
buffer (one `Nat` per `char`, `0` being the null terminator). -/
structure VeniceString where
  length : Nat
  data : List Nat
  deriving DecidableEq, Repr

/-- `venice_string_new_no_alloc` from `src/runtime/string.c`: wraps the
given buffer without copying. -/
def venice_string_new_no_alloc (length : Nat) (data : List Nat) : VeniceString :=
  { length := length, data := data }

/-- C `strlen`: the number of bytes before the first null terminator. -/
def strlen (data : List Nat) : Nat :=
  (data.takeWhile (fun b => b != 0)).length

/-- `venice_string_new` from `src/runtime/string.c`: computes the length
with `strlen`, allocates `length + 1` bytes, and copies `length + 1` bytes
(the string and its terminator) from the source into the fresh buffer. -/
def venice_string_new (data : List Nat) : VeniceString :=
  { length := strlen data, data := data.take (strlen data + 1) }

/-- `venice_string_concat` from `src/runtime/string.c`: allocates
`left.length + right.length + 1` bytes, copies `left.length` bytes from
`left`, then `right.length + 1` bytes (content plus terminator) from
`right`, and wraps the fresh buffer with length `length - 1`. -/
def venice_string_concat (left right : VeniceString) : VeniceString :=
  let length := left.length + right.length + 1
  let data := left.data.take left.length ++ right.data.take (right.length + 1)
  venice_string_new_no_alloc (length - 1) data

/-- `venice_string_length` from `src/runtime/string.c`. -/
def venice_string_length (string : VeniceString) : Nat := string.length

theorem strlen_append (bs rest : List Nat) (h : ∀ b ∈ bs, b ≠ 0) :
    strlen (bs ++ 0 :: rest) = bs.length := by
  induction bs with
  | nil => simp [strlen]
  | cons b l ih =>
      have hb : b ≠ 0 := h b (by simp)
      have hl : ∀ x ∈ l, x ≠ 0 := fun x hx => h x (List.mem_cons_of_mem _ hx)
      simp only [strlen, List.cons_append, List.takeWhile_cons] at *
      simp [bne_iff_ne, hb, ih hl]

/-- C9: for a null-terminated source whose content bytes `bs` contain no
null (followed by the terminator and arbitrary further memory `rest`),
`venice_string_new` returns a buffer of length `len(s) = bs.length` whose
bytes are exactly `bs ++ [0]`; the fresh buffer holds (and was allocated
for) exactly `bs.length + 1` bytes — the copied content plus terminator.
Independence from the source holds by construction: the result is a copy
into a freshly allocated buffer, so later mutation of the source cannot
affect it. -/
theorem c9_string_new_copies (bs rest : List Nat) (h : ∀ b ∈ bs, b ≠ 0) :
    venice_string_new (bs ++ 0 :: rest) =
      { length := bs.length, data := bs ++ [0] } ∧
    (venice_string_new (bs ++ 0 :: rest)).data.length = bs.length + 1 := by
  have hs : strlen (bs ++ 0 :: rest) = bs.length := strlen_append bs rest h
  have htake : (bs ++ 0 :: rest).take (bs.length + 1) = bs ++ [0] := by
    rw [List.take_append_eq_append_take]
    have h1 : bs.take (bs.length + 1) = bs := List.take_of_length_le (by omega)
    have h2 : bs.length + 1 - bs.length = 1 := by omega
    rw [h1, h2]
    rfl
  constructor
  · simp [venice_string_new, hs, htake]
  · simp [venice_string_new, hs, htake]

/-- Witness for C9 at the source bytes `[104, 105]` followed by the
terminator and one byte of unrelated trailing memory. -/
theorem c9_string_new_copies_witness :
    venice_string_new ([104, 105] ++ 0 :: [99]) =
      { length := 2, data := [104, 105, 0] } :=
  (c9_string_new_copies [104, 105] [99] (by decide)).1

/-- C8: for well-formed string buffers `a` and `b` (each holding its
content bytes followed by the null terminator at offset `length`),
`venice_string_concat a b` has length `a.length + b.length`, its bytes are
the literal byte-concatenation of the two contents followed by the
terminator, and the fresh buffer holds (and was allocated for) exactly
`a.length + b.length + 1` bytes. Both inputs are left unmodified by
construction: the operation reads them and writes only the fresh buffer. -/
theorem c8_concat_law (a b : VeniceString) (as bs : List Nat)
    (ha : a.data = as ++ [0]) (hla : as.length = a.length)
    (hb : b.data = bs ++ [0]) (hlb : bs.length = b.length) :
    venice_string_length (venice_string_concat a b) = a.length + b.length ∧
    (venice_string_concat a b).data = as ++ bs ++ [0] ∧
    (venice_string_concat a b).data.length = a.length + b.length + 1 := by
  have hleft : a.data.take a.length = as := by
    rw [ha, ← hla, List.take_left]
  have hright : b.data.take (b.length + 1) = bs ++ [0] := by
    rw [hb, ← hlb]
    have : bs.length + 1 = (bs ++ [0]).length := by simp
    rw [this, List.take_length]
  refine ⟨?_, ?_, ?_⟩
  · simp [venice_string_concat, venice_string_length, venice_string_new_no_alloc]
  · simp [venice_string_concat, venice_string_new_no_alloc, hleft, hright]
  · simp [venice_string_concat, venice_string_new_no_alloc, hleft, hright]
    omega

/-- Witness for C8: concatenating the buffers for "hi" (bytes 104, 105)
and "!" (byte 33). -/
theorem c8_concat_law_witness :
    venice_string_length
        (venice_string_concat { length := 2, data := [104, 105, 0] }
          { length := 1, data := [33, 0] }) = 3 :=
  (c8_concat_law { length := 2, data := [104, 105, 0] }
    { length := 1, data := [33, 0] } [104, 105] [33]
    rfl rfl rfl rfl).1

/-! ### `src/ffi/venice.c`: the boxed tagged-value object model

`VeniceObject` is the discriminated union from `src/ffi/venice.h`: the tag
plus, per tag, a pointer to a separately heap-allocated variant struct
(`VeniceIntObject`, `VeniceStringObject`, `VeniceListObject`). The inductive
below is the tag together with the valid union arm; reading a different arm
than the tag indicates is undefined behaviour in C, so operations that would
do it return `Option.none`. Values are constructed strictly bottom-up, which
is exactly what an inductive type captures: no cycles can exist. -/

inductive VeniceObject where
  | intObject (value : Int)
  | stringObject (value : List Nat)
  | listObject (items : List VeniceObject) (capacity : Nat)

/-- `NewVeniceIntObject` from `src/ffi/venice.c`. -/
def NewVeniceIntObject (value : Int) : VeniceObject :=
  VeniceObject.intObject value

/-- `NewVeniceStringObject` from `src/ffi/venice.c`: stores the caller's
byte pointer without copying. -/
def NewVeniceStringObject (value : List Nat) : VeniceObject :=
  VeniceObject.stringObject value

/-- `NewVeniceListObject` from `src/ffi/venice.c`: empty, capacity 8. -/
def NewVeniceListObject : VeniceObject :=
  VeniceObject.listObject [] 8

/-- `VeniceListObjectAppend` from `src/ffi/venice.c`: reads the `list_object`
union arm unconditionally — defined behaviour only when the tag is List
(`none` models the undefined wrong-arm access) — then stores the element at
index `length` and increments `length` only when `length < capacity`;
otherwise the call returns with the list unchanged. -/
def VeniceListObjectAppend (list_obj obj : VeniceObject) : Option VeniceObject :=
  match list_obj with
  | VeniceObject.listObject items cap =>
      if items.length < cap then
        some (VeniceObject.listObject (items ++ [obj]) cap)
      else
        some (VeniceObject.listObject items cap)
  | _ => none

/-- C3: `append_to_list` appends exactly when the value is tagged List and
the length is below the capacity; at capacity the element is silently
discarded and the stored items, length, and capacity are unchanged; on a
value not tagged List no defined append takes place (the access to the
List union arm is undefined). -/
theorem c3_append_below_capacity_only :
    (∀ (items : List VeniceObject) (cap : Nat) (e : VeniceObject),
        items.length < cap →
          VeniceListObjectAppend (VeniceObject.listObject items cap) e =
            some (VeniceObject.listObject (items ++ [e]) cap)) ∧
    (∀ (items : List VeniceObject) (cap : Nat) (e : VeniceObject),
        cap ≤ items.length →
          VeniceListObjectAppend (VeniceObject.listObject items cap) e =
            some (VeniceObject.listObject items cap)) ∧
    (∀ (i : Int) (e : VeniceObject),
        VeniceListObjectAppend (VeniceObject.intObject i) e = none) ∧
    (∀ (s : List Nat) (e : VeniceObject),
        VeniceListObjectAppend (VeniceObject.stringObject s) e = none) := by
  refine ⟨?_, ?_, ?_, ?_⟩
  · intro items cap e h
    simp [VeniceListObjectAppend, h]
  · intro items cap e h
    have h' : ¬ (items.length < cap) := by omega
    simp [VeniceListObjectAppend, h']
  · intro i e
    rfl
  · intro s e
    rfl

/-- Witness for C3: appending to a List-tagged object of length 1 and
capacity 8 stores the element; appending to one at capacity (length 1,
capacity 1) leaves it unchanged. -/
theorem c3_append_below_capacity_only_witness :
    ([VeniceObject.intObject 1].length < 8 ∧
      VeniceListObjectAppend
          (VeniceObject.listObject [VeniceObject.intObject 1] 8)
          (VeniceObject.intObject 2) =
        some (VeniceObject.listObject
          [VeniceObject.intObject 1, VeniceObject.intObject 2] 8)) ∧
    (1 ≤ [VeniceObject.intObject 1].length ∧
      VeniceListObjectAppend
          (VeniceObject.listObject [VeniceObject.intObject 1] 1)
          (VeniceObject.intObject 2) =
        some (VeniceObject.listObject [VeniceObject.intObject 1] 1)) :=
  ⟨⟨by decide,
      c3_append_below_capacity_only.1 [VeniceObject.intObject 1] 8
        (VeniceObject.intObject 2) (by decide)⟩,
    ⟨by decide,
      c3_append_below_capacity_only.2.1 [VeniceObject.intObject 1] 1
        (VeniceObject.intObject 2) (by decide)⟩⟩

/-- The kinds of heap cell a `VeniceObject` owns: its own `VeniceObject`
struct (`wrapper`), the per-variant boxed struct (`box`), and, for lists,
the `items` backing buffer (`buffer`). A cell is addressed by the path of
list indices from the root value to the node owning it, paired with the
kind. -/
inductive CellKind where
  | wrapper
  | box
  | buffer
  deriving DecidableEq, Repr

/-- A heap cell: the path of the owning node, and which of its cells. -/
abbrev Cell : Type := List Nat × CellKind

mutual
/-- The heap cells allocated while constructing the value strictly
bottom-up, in allocation order: children are fully built before their
parent; `NewVeniceIntObject` and `NewVeniceStringObject` allocate the
variant box then the wrapper; `NewVeniceListObject` allocates the box, then
the items buffer, then the wrapper. (`NewVeniceStringObject` does not
allocate the character data: it stores the caller's pointer, so the bytes
are not owned by the value.) -/
def allocTrace : VeniceObject → List Nat → List Cell
  | VeniceObject.intObject _, p => [(p, CellKind.box), (p, CellKind.wrapper)]
  | VeniceObject.stringObject _, p => [(p, CellKind.box), (p, CellKind.wrapper)]
  | VeniceObject.listObject items _, p =>
      allocTraceChildren items p 0 ++
        [(p, CellKind.box), (p, CellKind.buffer), (p, CellKind.wrapper)]

/-- Allocation traces of the children of a list node, left to right,
child `i` sitting at path `p ++ [i]`. -/
def allocTraceChildren : List VeniceObject → List Nat → Nat → List Cell
  | [], _, _ => []
  | v :: vs, p, i => allocTrace v (p ++ [i]) ++ allocTraceChildren vs p (i + 1)
end

mutual
/-- The cells freed by `FreeVeniceObject` from `src/ffi/venice.c`, in the
order the code frees them: for an Integer or String the variant box then
the wrapper; for a List every contained value recursively (depth-first,
left to right), then the items buffer, then the box, then the wrapper.
Totality of this definition is the termination of the traversal: values are
built strictly bottom-up, so they form a tree and the recursion is
structural. -/
def freeTrace : VeniceObject → List Nat → List Cell
  | VeniceObject.intObject _, p => [(p, CellKind.box), (p, CellKind.wrapper)]
  | VeniceObject.stringObject _, p => [(p, CellKind.box), (p, CellKind.wrapper)]
  | VeniceObject.listObject items _, p =>
      freeTraceChildren items p 0 ++
        [(p, CellKind.buffer), (p, CellKind.box), (p, CellKind.wrapper)]

/-- Free traces of the children of a list node, left to right. -/
def freeTraceChildren : List VeniceObject → List Nat → Nat → List Cell
  | [], _, _ => []
  | v :: vs, p, i => freeTrace v (p ++ [i]) ++ freeTraceChildren vs p (i + 1)
end

mutual
theorem freeTrace_perm_allocTrace : ∀ (v : VeniceObject) (p : List Nat),
    (freeTrace v p).Perm (allocTrace v p)
  | VeniceObject.intObject _, _ => List.Perm.refl _
  | VeniceObject.stringObject _, _ => List.Perm.refl _
  | VeniceObject.listObject items _, p =>
      (freeTraceChildren_perm items p 0).append
        (List.Perm.swap (p, CellKind.box) (p, CellKind.buffer)
          [(p, CellKind.wrapper)])

theorem freeTraceChildren_perm : ∀ (items : List VeniceObject) (p : List Nat)
      (i : Nat), (freeTraceChildren items p i).Perm (allocTraceChildren items p i)
  | [], _, _ => List.Perm.refl _
  | v :: vs, p, i =>
      (freeTrace_perm_allocTrace v (p ++ [i])).append
        (freeTraceChildren_perm vs p (i + 1))
end

theorem freeTraceChildren_eq_flatten (items : List VeniceObject) (p : List Nat) :
    ∀ i, freeTraceChildren items p i =
      ((items.enumFrom i).map (fun ie => freeTrace ie.2 (p ++ [ie.1]))).flatten := by
  induction items with
  | nil => intro i; rfl
  | cons v vs ih =>
      intro i
      simp only [freeTraceChildren, List.enumFrom, List.map, List.flatten_cons,
        ih (i + 1)]

/-- C5: destroying a value frees exactly the transitively owned heap
allocations — the free trace is a permutation of the cells allocated during
the bottom-up construction of the value (each owned cell freed exactly
once, nothing else freed, nothing leaked) — and the traversal is
depth-first post-order: the trace of a List value is the concatenation of
its children's traces, in order, followed by the backing buffer, the list
box, and the wrapper. Termination is the totality of `freeTrace`, which is
structural because bottom-up construction admits no cycles. -/
theorem c5_destroy_frees_exactly (v : VeniceObject) (p : List Nat) :
    (freeTrace v p).Perm (allocTrace v p) ∧
    (∀ (items : List VeniceObject) (cap : Nat),
        freeTrace (VeniceObject.listObject items cap) p =
          ((items.enum.map (fun ie => freeTrace ie.2 (p ++ [ie.1]))).flatten ++
            [(p, CellKind.buffer), (p, CellKind.box), (p, CellKind.wrapper)])) := by
  constructor
  · exact freeTrace_perm_allocTrace v p
  · intro items cap
    have h := freeTraceChildren_eq_flatten items p 0
    simp only [freeTrace, h]
    rfl

/-! ### `src/runtime/io.c`: `venice_file_read_all_with_buffer_size`

The file is modelled as the list of bytes remaining to be read; `fread`
into the buffer tail returns `min buffer_size remaining` bytes. The
accumulated buffer contents are `acc` (so the C `length` variable is
`acc.length`), and the size in bytes of every allocation made for the
buffer — the initial `venice_malloc (buffer_size + 1)` and each
`venice_realloc (length + buffer_size + 1)` — is recorded in order in
`allocs`. The loop runs until a read returns fewer than `buffer_size`
bytes; each continuing iteration consumes exactly `buffer_size ≥ 1` bytes
of the file, so `file.length + 1` iterations always suffice, and the fuel
argument of `readLoop` is set to exactly that by the entry point below.
Fuel exhaustion (`none`) therefore happens only when the loop cannot
terminate, namely for `buffer_size = 0`, where `nread = 0 = buffer_size`
on every iteration. -/

def readLoop : Nat → Nat → List Nat → List Nat → List Nat →
    Option (List Nat × List Nat)
  | 0, _, _, _, _ => none
  | fuel + 1, buffer_size, file, acc, allocs =>
      let nread := min buffer_size file.length
      let acc2 := acc ++ file.take buffer_size
      if nread = buffer_size then
        readLoop fuel buffer_size (file.drop buffer_size) acc2
          (allocs ++ [acc2.length + buffer_size + 1])
      else
        some (acc2, allocs)

/-- `venice_file_read_all_with_buffer_size` from `src/runtime/io.c`:
returns the string wrapping the accumulated bytes with the terminator
written at offset `length` (`buf[length] = 0` followed by
`venice_string_new_no_alloc(length, buf)`), paired with the trace of
buffer allocation sizes. -/
def venice_file_read_all_with_buffer_size (buffer_size : Nat)
    (file : List Nat) : Option (VeniceString × List Nat) :=
  (readLoop (file.length + 1) buffer_size file [] [buffer_size + 1]).map
    (fun r => (venice_string_new_no_alloc r.1.length (r.1 ++ [0]), r.2))

/-- `FILE_READ_BUFFER_SIZE` from `src/runtime/io.c`. -/
def FILE_READ_BUFFER_SIZE : Nat := 4096

/-- `venice_file_read_all` from `src/runtime/io.c`. -/
def venice_file_read_all (file : List Nat) : Option (VeniceString × List Nat) :=
  venice_file_read_all_with_buffer_size FILE_READ_BUFFER_SIZE file

theorem readLoop_spec {b : Nat} (hb : 0 < b) :
    ∀ (fuel : Nat) (file acc allocs : List Nat), file.length < fuel →
      readLoop fuel b file acc allocs =
        some (acc ++ file,
          allocs ++ (List.range (file.length / b)).map
            (fun k => acc.length + (k + 1) * b + b + 1)) := by
  intro fuel
  induction fuel with
  | zero => intro file acc allocs h; omega
  | succ fuel ih =>
      intro file acc allocs h
      by_cases hlt : file.length < b
      · have hne : min b file.length ≠ b := by
          rw [Nat.min_def]
          split <;> omega
        have hdiv : file.length / b = 0 := Nat.div_eq_of_lt hlt
        have htake : file.take b = file := List.take_of_length_le (by omega)
        simp [readLoop, hne, hdiv, htake]
      · have hle : b ≤ file.length := by omega
        have heq : min b file.length = b := Nat.min_eq_left hle
        have hdlen : (file.drop b).length = file.length - b := by simp
        have hlen2 : (file.drop b).length < fuel := by
          rw [hdlen]; omega
        have hacclen : (acc ++ file.take b).length = acc.length + b := by
          simp [Nat.min_eq_left hle]
        have hfile : acc ++ file.take b ++ file.drop b = acc ++ file := by
          rw [List.append_assoc, List.take_append_drop]
        have hdiv : file.length / b = (file.length - b) / b + 1 :=
          Nat.div_eq_sub_div hb hle
        have hcomp :
            (allocs ++ [(acc ++ file.take b).length + b + 1]) ++
              (List.range ((file.drop b).length / b)).map
                (fun k => (acc ++ file.take b).length + (k + 1) * b + b + 1) =
            allocs ++ (List.range (file.length / b)).map
              (fun k => acc.length + (k + 1) * b + b + 1) := by
          rw [hacclen, hdlen, hdiv, List.range_succ_eq_map, List.map_cons,
            List.map_map, List.append_assoc, List.singleton_append]
          refine congrArg (fun z => allocs ++ z) ?_
          congr 1
          · ring
          · apply List.map_congr_left
            intro k _
            simp only [Function.comp, Nat.succ_eq_add_one]
            ring
        simp only [readLoop, heq, eq_self_iff_true, if_true]
        rw [ih (file.drop b) (acc ++ file.take b) _ hlen2, hfile, hcomp]

/-- The allocation-size trace grows arithmetically: every allocation is
exactly `b` bytes larger than the one before it. -/
theorem additive_trace_chain (b : Nat) :
    ∀ (m a : Nat),
      List.Chain' (fun x y => y = x + b)
        (a :: (List.range m).map (fun k => a + (k + 1) * b)) := by
  intro m
  induction m with
  | zero => intro a; simp
  | succ m ih =>
      intro a
      rw [List.range_succ_eq_map, List.map_cons, List.map_map]
      have hmap : (List.map ((fun k => a + (k + 1) * b) ∘ Nat.succ)
          (List.range m)) =
          (List.range m).map (fun k => (a + b) + (k + 1) * b) := by
        apply List.map_congr_left
        intro k _
        simp only [Function.comp, Nat.succ_eq_add_one]
        ring
      rw [hmap]
      have hhead : a + (0 + 1) * b = a + b := by ring
      rw [hhead]
      exact List.Chain'.cons rfl (ih (a + b))

/-- C10 fails as stated: reading a 2-byte file with initial chunk size 1
produces the allocation-size trace `[2, 3, 4]` — the buffer grows by one
byte per reallocation, which is not the doubling discipline the claim
asserts (consecutive allocations would have to satisfy `y = 2 * x`). -/
theorem c10_counterexample :
    (venice_file_read_all_with_buffer_size 1 [97, 98]).map Prod.snd =
      some [2, 3, 4] ∧
    ¬ List.Chain' (fun x y : Nat => y = 2 * x) [2, 3, 4] := by
  constructor
  · rfl
  · intro h
    rw [List.chain'_cons] at h
    omega

/-- C10 amended: for every file of `n` bytes and every initial chunk size
`b > 0`, the read-all routine accumulates the file's bytes into a buffer
that grows additively — the allocation sizes are `b + 1` followed by
`(k + 1) * b + b + 1` for each of the `n / b` full chunks read, each
allocation exactly `b` bytes larger than the previous one — and returns a
string of length `n` whose data is exactly the file's contents followed by
a null terminator. -/
theorem c10_read_all_additive_growth (b : Nat) (file : List Nat)
    (hb : 0 < b) :
    venice_file_read_all_with_buffer_size b file =
      some (venice_string_new_no_alloc file.length (file ++ [0]),
        (b + 1) :: (List.range (file.length / b)).map
          (fun k => (k + 1) * b + b + 1)) ∧
    List.Chain' (fun x y => y = x + b)
      ((b + 1) :: (List.range (file.length / b)).map
        (fun k => (k + 1) * b + b + 1)) := by
  constructor
  · rw [venice_file_read_all_with_buffer_size,
      readLoop_spec hb (file.length + 1) file [] [b + 1] (by omega)]
    simp only [Option.map_some, List.nil_append, List.length_nil,
      Nat.zero_add, List.singleton_append]
    rfl
  · have h := additive_trace_chain b (file.length / b) (b + 1)
    have hmap : (List.range (file.length / b)).map
        (fun k => (b + 1) + (k + 1) * b) =
        (List.range (file.length / b)).map (fun k => (k + 1) * b + b + 1) := by
      apply List.map_congr_left
      intro k _
      ring
    rw [hmap] at h
    exact h

/-- Witness for C10 (amended) at chunk size 1 and the 2-byte file
`[97, 98]`. -/
theorem c10_read_all_additive_growth_witness :
    0 < 1 ∧
    venice_file_read_all_with_buffer_size 1 [97, 98] =
      some (venice_string_new_no_alloc 2 [97, 98, 0], [2, 3, 4]) :=
  ⟨Nat.one_pos, (c10_read_all_additive_growth 1 [97, 98] Nat.one_pos).1⟩

end Venice
